import Mathlib

/-!
Verification of the windowed OHLCV data stream of `pkg/data_handler.go`
(kate-backtest).

Modelling conventions: Go machine integers are modelled as `Int`; Go
`float64` cell values as `ℚ` (the code is a pass-through parser, only
parse success or failure and the carried value matter); Go slices as
`List`; a Go slice expression carries its bounds check, with the
out-of-range panic modelled explicitly; a `nil` result is an explicit
constructor; `log.Fatal` is a `fatal` outcome and a runtime panic a
`panicked` outcome. `strconv.ParseFloat` is external library code and is
abstracted as a parameter `pf : String → Option ℚ`.
-/

/-- `DataPoint` from the source: one OHLCV record. The embedded `Event`
struct carries no data used by the data handler and is omitted. -/
structure DataPoint where
  Open : ℚ
  High : ℚ
  Low : ℚ
  Close : ℚ
  Volume : ℚ
deriving DecidableEq

/-- `AggregatedDataPoints` from the source: a delivered window. -/
structure AggregatedDataPoints where
  datapoints : List DataPoint
deriving DecidableEq

/-- `DataHandler` from the source: the cursor (`counter`), the window
size and the price series, in source field order. -/
structure DataHandler where
  counter : Int
  windowSize : Int
  prices : List DataPoint
deriving DecidableEq

/-- `newDataHandler` from the source: builds the handler with the cursor
initialised to the window size. The Go constructor performs no
validation of its arguments. -/
def newDataHandler (prices : List DataPoint) (windowSize : Int) : DataHandler :=
  ⟨windowSize, windowSize, prices⟩

/-- Go slice expression `xs[lo:hi]` together with its bounds check;
`none` models the out-of-range panic. -/
def goSlice (xs : List DataPoint) (lo hi : Int) : Option (List DataPoint) :=
  if 0 ≤ lo ∧ lo ≤ hi ∧ hi ≤ (xs.length : Int) then
    some ((xs.take hi.toNat).drop lo.toNat)
  else
    none

/-- Result of one `nextValues` call: a delivered window together with
the updated handler, the `nil` end-of-stream signal (handler unchanged),
or a runtime panic. -/
inductive StepResult where
  | window (data : AggregatedDataPoints) (handler : DataHandler)
  | exhausted (handler : DataHandler)
  | panicked
deriving DecidableEq

/-- `nextValues` from the source: if `counter < len(prices)`, deliver
`prices[counter-windowSize : counter]` and increment the counter;
otherwise return `nil`. -/
def nextValues (handler : DataHandler) : StepResult :=
  if handler.counter < (handler.prices.length : Int) then
    match goSlice handler.prices (handler.counter - handler.windowSize) handler.counter with
    | some w => .window ⟨w⟩ ⟨handler.counter + 1, handler.windowSize, handler.prices⟩
    | none => .panicked
  else
    .exhausted handler

/-- The handler state after one `nextValues` call (unchanged on
exhaustion; a panic aborts the run, so the state is kept unchanged for
the purpose of iteration). -/
def advanceState (handler : DataHandler) : DataHandler :=
  match nextValues handler with
  | .window _ h => h
  | .exhausted h => h
  | .panicked => handler

/-- All windows delivered before the first exhaustion signal (or panic),
collected with explicit fuel. -/
def collect : Nat → DataHandler → List (List DataPoint)
  | 0, _ => []
  | fuel + 1, handler =>
    match nextValues handler with
    | .window d h => d.datapoints :: collect fuel h
    | _ => []

/-! Ingestion: `PricesFromCSV` and its helpers. -/

/-- `csvColumns` from the source: the required header columns. -/
def csvColumns : List String := ["open", "high", "low", "close", "volume"]

/-- ASCII lowercase of one character (`A`..`Z` shifted by 32). -/
def lowerChar (c : Char) : Char :=
  if 65 ≤ c.toNat ∧ c.toNat ≤ 90 then Char.ofNat (c.toNat + 32) else c

/-- Model of `strings.ToLower` (external library code); the required
columns are plain ASCII so only ASCII lowering is relevant. -/
def goToLower (s : String) : String :=
  String.mk (s.toList.map lowerChar)

/-- The loop of `isCSVHeaderValid`: walk the required columns, comparing
the lowercased header cell at the same index; indexing past the end of
the header line is an out-of-range panic, modelled as `none`. -/
def headerMatch : List String → List String → Option Bool
  | [], _ => some true
  | _ :: _, [] => none
  | col :: cols, cell :: cells =>
    if goToLower cell ≠ col then some false else headerMatch cols cells

/-- `isCSVHeaderValid` from the source. -/
def isCSVHeaderValid (firstLine : List String) : Option Bool :=
  headerMatch csvColumns firstLine

/-- `strToFloat` from the source, with `strconv.ParseFloat` abstracted
as the parameter `pf`; on failure the returned error message identifies
the offending token, modelled by carrying the token itself. -/
def strToFloat (pf : String → Option ℚ) (str : String) : Except String ℚ :=
  match pf str with
  | some number => Except.ok number
  | none => Except.error str

/-- The per-row conversion loop of `PricesFromCSV`: convert cells 0..4
in order, the first failing cell aborting with its token; a row with
fewer than five cells would panic on indexing (`none`; unreachable
behind the csv reader's field-count check). -/
def parse5 (pf : String → Option ℚ) : List String → Option (Except String DataPoint)
  | a :: b :: c :: d :: e :: _ =>
    some (
      match strToFloat pf a, strToFloat pf b, strToFloat pf c,
          strToFloat pf d, strToFloat pf e with
      | Except.error t, _, _, _, _ => Except.error t
      | _, Except.error t, _, _, _ => Except.error t
      | _, _, Except.error t, _, _ => Except.error t
      | _, _, _, Except.error t, _ => Except.error t
      | _, _, _, _, Except.error t => Except.error t
      | Except.ok va, Except.ok vb, Except.ok vc, Except.ok vd, Except.ok ve =>
        Except.ok ⟨va, vb, vc, vd, ve⟩)
  | _ => none

/-- Outcome of the row-reading loop of `PricesFromCSV`. -/
inductive RowsOutcome where
  | ok (prices : List DataPoint)
  | parseErr (token : String)
  | fatal
  | panicked
deriving DecidableEq

/-- The row loop of `PricesFromCSV`: the csv reader yields each record
and errors when a record's cell count differs from the header's, which
the loop turns into `log.Fatal`; otherwise the five OHLCV cells are
converted and the record appended. -/
def readRows (pf : String → Option ℚ) (fieldCount : Nat) : List (List String) → RowsOutcome
  | [] => .ok []
  | line :: rest =>
    if line.length ≠ fieldCount then .fatal
    else
      match parse5 pf line with
      | none => .panicked
      | some (Except.error t) => .parseErr t
      | some (Except.ok dp) =>
        match readRows pf fieldCount rest with
        | .ok prices => .ok (dp :: prices)
        | r => r

/-- The csv source: either it cannot be opened (the discarded `os.Open`
error leaves a reader whose every read errors), or it yields a list of
records with cells already split. -/
inductive Source where
  | unopenable
  | content (records : List (List String))

/-- Errors returned by `PricesFromCSV`: the header message, or the
invalid-parameter message carrying the offending token. -/
inductive IngestError where
  | schemaError
  | parseError (token : String)
deriving DecidableEq

/-- Result of `PricesFromCSV`: a handler, an error return, process
termination via `log.Fatal`, or a runtime panic. -/
inductive IngestResult where
  | ok (handler : DataHandler)
  | err (e : IngestError)
  | fatal
  | panicked
deriving DecidableEq

/-- `PricesFromCSV` from the source: the `os.Open` error is discarded;
a failing first read or an invalid header yields the header error; the
rows are then read and converted; on success the handler is built with
window size 5. -/
def PricesFromCSV (pf : String → Option ℚ) (src : Source) : IngestResult :=
  match src with
  | .unopenable => .err .schemaError
  | .content [] => .err .schemaError
  | .content (headerLine :: rows) =>
    match isCSVHeaderValid headerLine with
    | none => .panicked
    | some false => .err .schemaError
    | some true =>
      match readRows pf headerLine.length rows with
      | .ok prices => .ok (newDataHandler prices 5)
      | .parseErr t => .err (.parseError t)
      | .fatal => .fatal
      | .panicked => .panicked

/-- Digit list to a natural number. -/
def natOfDigits (l : List Char) : Nat :=
  l.foldl (fun n c => 10 * n + (c.toNat - 48)) 0

/-- Unsigned decimal text: digits with an optional fractional part. -/
def decUnsigned (l : List Char) : Option ℚ :=
  let ip := l.takeWhile Char.isDigit
  match l.dropWhile Char.isDigit with
  | [] => if ip.isEmpty then none else some ((natOfDigits ip : ℚ))
  | '.' :: fp =>
    if fp.all Char.isDigit && !(ip.isEmpty && fp.isEmpty) then
      some ((natOfDigits ip : ℚ) + (natOfDigits fp : ℚ) / ((10 : ℚ) ^ fp.length))
    else none
  | _ => none

/-- Modelled from the spec: `strconv.ParseFloat` (external library
code), restricted to the plain decimal notation the spec describes
(optional sign, digits, optional fractional part); used to instantiate
the abstract parse parameter on concrete inputs. -/
def pfDec (s : String) : Option ℚ :=
  match s.toList with
  | [] => none
  | '-' :: rest => (decUnsigned rest).map (fun q => -q)
  | '+' :: rest => decUnsigned rest
  | l => decUnsigned l

/-- A row whose five OHLCV cells all convert under `pf`. -/
def rowParses (pf : String → Option ℚ) (line : List String) : Bool :=
  match parse5 pf line with
  | some (Except.ok _) => true
  | _ => false

/-! Sample records (the concrete scenario of the specification). -/

/-- Sample record (1, 2, 0.5, 1.5, 100). -/
def dpA : DataPoint := ⟨1, 2, 1 / 2, 3 / 2, 100⟩

/-- Sample record (1.5, 2.5, 1, 2, 150). -/
def dpB : DataPoint := ⟨3 / 2, 5 / 2, 1, 2, 150⟩

/-- Sample record (2, 3, 1.5, 2.5, 200). -/
def dpC : DataPoint := ⟨2, 3, 3 / 2, 5 / 2, 200⟩

/-- Sample record (3, 4, 2, 3, 250). -/
def dpD : DataPoint := ⟨3, 4, 2, 3, 250⟩

/-- The offending token of the specification's example row. -/
def tokAbc : String := "abc"

/-! Basic step lemmas for `nextValues`. -/

/-- Delivery step with natural-number coordinates. -/
lemma nextValues_lt (p : List DataPoint) (W c : Nat) (hW : W ≤ c) (hc : c < p.length) :
    nextValues ⟨(c : Int), (W : Int), p⟩ =
      .window ⟨(p.drop (c - W)).take W⟩ ⟨(c : Int) + 1, (W : Int), p⟩ := by
  have hlt : ((c : Int)) < ((p.length : Int)) := by exact_mod_cast hc
  have hcond : (0 : Int) ≤ (c : Int) - (W : Int) ∧ (c : Int) - (W : Int) ≤ (c : Int) ∧
      (c : Int) ≤ ((p.length : Int)) := by omega
  have hslice : goSlice p ((c : Int) - (W : Int)) (c : Int) =
      some ((p.drop (c - W)).take W) := by
    rw [goSlice, if_pos hcond]
    have h1 : ((c : Int)).toNat = c := by omega
    have h2 : (((c : Int) - (W : Int))).toNat = c - W := by omega
    rw [h1, h2, List.drop_take]
    have h3 : c - (c - W) = W := by omega
    rw [h3]
  rw [nextValues]
  simp only [if_pos hlt, hslice]

/-- Exhaustion step: when the cursor has reached the end. -/
lemma nextValues_ge (h : DataHandler) (hge : (h.prices.length : Int) ≤ h.counter) :
    nextValues h = .exhausted h := by
  rw [nextValues, if_neg (by omega)]

/-! Structural lemmas about the stream. -/

/-- `nextValues` signals exhaustion exactly when the cursor has reached
the end, and then leaves the handler unchanged. -/
lemma nextValues_exhausted_iff (h h' : DataHandler) :
    nextValues h = .exhausted h' ↔ ((h.prices.length : Int) ≤ h.counter ∧ h' = h) := by
  constructor
  · intro hex
    by_cases hlt : h.counter < (h.prices.length : Int)
    · rw [nextValues, if_pos hlt] at hex
      cases hgs : goSlice h.prices (h.counter - h.windowSize) h.counter <;>
        rw [hgs] at hex <;> simp at hex
    · rw [nextValues, if_neg hlt] at hex
      simp only [StepResult.exhausted.injEq] at hex
      exact ⟨by omega, hex.symm⟩
  · rintro ⟨hge, rfl⟩
    exact nextValues_ge _ hge

/-- One advance either leaves the handler unchanged (exhaustion or
panic) or increments the cursor while it is still below the end. -/
lemma advanceState_cases (h : DataHandler) :
    advanceState h = h ∨
      (advanceState h = ⟨h.counter + 1, h.windowSize, h.prices⟩ ∧
        h.counter < (h.prices.length : Int)) := by
  rw [advanceState]
  by_cases hlt : h.counter < (h.prices.length : Int)
  · rw [nextValues, if_pos hlt]
    cases hgs : goSlice h.prices (h.counter - h.windowSize) h.counter with
    | none => exact Or.inl rfl
    | some w => exact Or.inr ⟨rfl, hlt⟩
  · rw [nextValues, if_neg hlt]
    exact Or.inl rfl

/-- Unfolding `collect` across one delivered window. -/
lemma collect_succ_window (fuel : Nat) (h h' : DataHandler) (d : AggregatedDataPoints)
    (hw : nextValues h = .window d h') :
    collect (fuel + 1) h = d.datapoints :: collect fuel h' := by
  rw [collect, hw]

/-- Closed form of the window run: from a state with cursor `c` inside
the series and `W ≤ c`, the stream delivers one window per remaining
position strictly before the end of the series. -/
lemma collect_eq (fuel : Nat) : ∀ (p : List DataPoint) (W c : Nat),
    1 ≤ W → W ≤ c → c ≤ p.length → p.length - c < fuel →
    collect fuel ⟨(c : Int), (W : Int), p⟩ =
      (List.range (p.length - c)).map (fun k => (p.drop (c - W + k)).take W) := by
  induction fuel with
  | zero =>
    intro p W c _ _ _ hfuel
    omega
  | succ fuel ih =>
    intro p W c hW hWc hc hfuel
    by_cases hlt : c < p.length
    · rw [collect_succ_window fuel _ _ _ (nextValues_lt p W c hWc hlt)]
      have hcast : ((c : Int) + 1) = (((c + 1 : Nat)) : Int) := by push_cast; ring
      rw [hcast, ih p W (c + 1) hW (by omega) (by omega) (by omega)]
      have hrange : p.length - c = (p.length - (c + 1)) + 1 := by omega
      rw [hrange, List.range_succ_eq_map, List.map_cons, List.map_map]
      have hfun : ((fun k => (p.drop (c - W + k)).take W) ∘ Nat.succ) =
          (fun k => (p.drop (c + 1 - W + k)).take W) := by
        funext k
        have harith : c - W + Nat.succ k = c + 1 - W + k := by omega
        simp only [Function.comp]
        rw [harith]
      rw [hfun]
      have hzero : c - W + 0 = c - W := by omega
      simp only [hzero]
    · have hce : c = p.length := by omega
      rw [collect, nextValues_ge _ (by simp only []; omega)]
      simp [hce]

/-- `collect` is empty from any exhausted state. -/
lemma collect_exhausted (h : DataHandler) (hge : (h.prices.length : Int) ≤ h.counter) :
    ∀ fuel, collect fuel h = [] := by
  intro fuel
  cases fuel with
  | zero => rfl
  | succ n => rw [collect, nextValues_ge h hge]

/-! Structural lemmas about ingestion. -/

/-- The header loop accepts iff the line is long enough and its prefix,
lowercased, equals the required columns. -/
lemma headerMatch_some_true (cols : List String) : ∀ line : List String,
    headerMatch cols line = some true ↔
      cols.length ≤ line.length ∧ (line.take cols.length).map goToLower = cols := by
  induction cols with
  | nil => intro line; simp [headerMatch]
  | cons col cols ih =>
    intro line
    cases line with
    | nil => simp [headerMatch]
    | cons cell cells =>
      by_cases hcc : goToLower cell = col
      · have hcond : ¬(goToLower cell ≠ col) := by simp [hcc]
        simp only [headerMatch]
        rw [if_neg hcond]
        simp only [List.length_cons, List.take_succ_cons, List.map_cons, List.cons.injEq,
          hcc, true_and, Nat.add_le_add_iff_right]
        exact ih cells
      · simp [headerMatch, hcc]

/-- The header loop panics iff the line is too short but matches the
required columns on every cell it does have. -/
lemma headerMatch_none (cols : List String) : ∀ line : List String,
    headerMatch cols line = none ↔
      line.length < cols.length ∧ line.map goToLower = cols.take line.length := by
  induction cols with
  | nil => intro line; simp [headerMatch]
  | cons col cols ih =>
    intro line
    cases line with
    | nil => simp [headerMatch]
    | cons cell cells =>
      by_cases hcc : goToLower cell = col
      · have hcond : ¬(goToLower cell ≠ col) := by simp [hcc]
        simp only [headerMatch]
        rw [if_neg hcond]
        simp only [List.length_cons, List.take_succ_cons, List.map_cons, List.cons.injEq,
          hcc, true_and, Nat.add_lt_add_iff_right]
        exact ih cells
      · simp [headerMatch, hcc]

/-- A row with at least five cells never panics in the conversion loop. -/
lemma parse5_some (pf : String → Option ℚ) (l : List String) (h5 : 5 ≤ l.length) :
    ∃ res, parse5 pf l = some res := by
  rcases l with _ | ⟨a, _ | ⟨b, _ | ⟨c, _ | ⟨d, _ | ⟨e, rest⟩⟩⟩⟩⟩ <;>
    first
      | exact ⟨_, rfl⟩
      | simp at h5

/-- The token reported by the conversion loop is an actual offending cell
among the five OHLCV cells of the row. -/
lemma parse5_error_token (pf : String → Option ℚ) (l : List String) (t : String)
    (h : parse5 pf l = some (Except.error t)) :
    t ∈ l.take 5 ∧ pf t = none := by
  rcases l with _ | ⟨a, l⟩
  · simp [parse5] at h
  rcases l with _ | ⟨b, l⟩
  · simp [parse5] at h
  rcases l with _ | ⟨c, l⟩
  · simp [parse5] at h
  rcases l with _ | ⟨d, l⟩
  · simp [parse5] at h
  rcases l with _ | ⟨e, l⟩
  · simp [parse5] at h
  rcases hpa : pf a with _ | va <;> rcases hpb : pf b with _ | vb <;>
    rcases hpc : pf c with _ | vc <;> rcases hpd : pf d with _ | vd <;>
    rcases hpe : pf e with _ | ve <;>
    simp [parse5, strToFloat, hpa, hpb, hpc, hpd, hpe] at h <;>
    subst h <;>
    simp [hpa, hpb, hpc, hpd, hpe]

/-- A row accepted by `rowParses` converts to some record. -/
lemma rowParses_eq_true (pf : String → Option ℚ) (r : List String)
    (h : rowParses pf r = true) :
    ∃ dp, parse5 pf r = some (Except.ok dp) := by
  rw [rowParses] at h
  rcases hp : parse5 pf r with _ | res
  · rw [hp] at h
    simp at h
  · rcases res with t | dp
    · rw [hp] at h
      simp at h
    · exact ⟨dp, rfl⟩

/-- The row loop reports the parse error of the first offending row. -/
lemma readRows_parse_error (pf : String → Option ℚ) (fc : Nat) :
    ∀ (pre : List (List String)) (line : List String) (post : List (List String))
      (t : String),
    (∀ r ∈ pre, r.length = fc ∧ rowParses pf r = true) →
    line.length = fc →
    parse5 pf line = some (Except.error t) →
    readRows pf fc (pre ++ line :: post) = .parseErr t := by
  intro pre
  induction pre with
  | nil =>
    intro line post t _ hlen herr
    have hcond : ¬(line.length ≠ fc) := by simp [hlen]
    rw [List.nil_append]
    simp only [readRows]
    rw [if_neg hcond, herr]
  | cons r pre ih =>
    intro line post t hpre hlen herr
    have hr := hpre r (List.mem_cons_self r pre)
    have hcond : ¬(r.length ≠ fc) := by simp [hr.1]
    obtain ⟨dp, hdp⟩ := rowParses_eq_true pf r hr.2
    rw [List.cons_append]
    simp only [readRows]
    rw [if_neg hcond, hdp,
      ih line post t (fun s hs => hpre s (List.mem_cons_of_mem r hs)) hlen herr]

/-- The row loop terminates the process on the first row whose cell
count differs from the header's. -/
lemma readRows_fatal (pf : String → Option ℚ) (fc : Nat) :
    ∀ (pre : List (List String)) (line : List String) (post : List (List String)),
    (∀ r ∈ pre, r.length = fc ∧ rowParses pf r = true) →
    line.length ≠ fc →
    readRows pf fc (pre ++ line :: post) = .fatal := by
  intro pre
  induction pre with
  | nil =>
    intro line post _ hlen
    rw [List.nil_append]
    simp only [readRows]
    rw [if_pos hlen]
  | cons r pre ih =>
    intro line post hpre hlen
    have hr := hpre r (List.mem_cons_self r pre)
    have hcond : ¬(r.length ≠ fc) := by simp [hr.1]
    obtain ⟨dp, hdp⟩ := rowParses_eq_true pf r hr.2
    rw [List.cons_append]
    simp only [readRows]
    rw [if_neg hcond, hdp,
      ih line post (fun s hs => hpre s (List.mem_cons_of_mem r hs)) hlen]

/-- When the header has at least five columns and every row has the
header's cell count, the row loop never terminates the process and
never panics. -/
lemma readRows_no_crash (pf : String → Option ℚ) (fc : Nat) (h5 : 5 ≤ fc) :
    ∀ rows : List (List String), (∀ r ∈ rows, r.length = fc) →
    readRows pf fc rows ≠ .fatal ∧ readRows pf fc rows ≠ .panicked := by
  intro rows
  induction rows with
  | nil =>
    intro _
    simp [readRows]
  | cons r rest ih =>
    intro hlen
    have hr : r.length = fc := hlen r (List.mem_cons_self r rest)
    have hcond : ¬(r.length ≠ fc) := by simp [hr]
    obtain ⟨res, hres⟩ := parse5_some pf r (by omega)
    have ihres := ih (fun s hs => hlen s (List.mem_cons_of_mem r hs))
    simp only [readRows]
    rw [if_neg hcond, hres]
    rcases res with t | dp
    · simp
    · cases hrr : readRows pf fc rest with
      | ok prices => simp
      | parseErr t2 => simp
      | fatal => exact absurd hrr ihres.1
      | panicked => exact absurd hrr ihres.2

/-! Claim theorems: the windowed stream. -/

/-- C1 counterexample: on the spec's own concrete scenario (three rows,
window size 2) the stream delivers a single window, not
`N - W + 1 = 2`: the final window is never delivered. -/
theorem claim_window_count_refuted :
    collect 4 (newDataHandler [dpA, dpB, dpC] 2) = [[dpA, dpB]] ∧
    (collect 4 (newDataHandler [dpA, dpB, dpC] 2)).length ≠
      [dpA, dpB, dpC].length - 2 + 1 := by
  constructor
  · rfl
  · decide

/-- C1 (amended): for window size `W ≥ 1` and `N = len(series) ≥ W`, the
stream delivers exactly `N - W` windows before first signaling
exhaustion; the k-th delivered window (0-indexed) equals
`series[k : k+W]` and has length exactly `W`. The final window
`series[N-W : N]` is never delivered. -/
theorem stream_delivers_all_but_last_window (p : List DataPoint) (W fuel : Nat)
    (hW : 1 ≤ W) (hN : W ≤ p.length) (hfuel : p.length - W < fuel) :
    collect fuel (newDataHandler p (W : Int)) =
      (List.range (p.length - W)).map (fun k => (p.drop k).take W) ∧
    ∀ w ∈ collect fuel (newDataHandler p (W : Int)), w.length = W := by
  have hmain : collect fuel (newDataHandler p (W : Int)) =
      (List.range (p.length - W)).map (fun k => (p.drop k).take W) := by
    have h := collect_eq fuel p W W hW le_rfl hN hfuel
    have hfun : (fun k => (p.drop (W - W + k)).take W) = fun k => (p.drop k).take W := by
      funext k
      have harith : W - W + k = k := by omega
      rw [harith]
    rw [newDataHandler, h, hfun]
  refine ⟨hmain, ?_⟩
  intro w hw
  rw [hmain] at hw
  obtain ⟨k, hk, rfl⟩ := List.mem_map.mp hw
  have hkr : k < p.length - W := List.mem_range.mp hk
  simp only [List.length_take, List.length_drop]
  omega

/-- C1 witness: four rows, window size 2 → two windows delivered. -/
theorem stream_delivers_all_but_last_window_witness :
    collect 5 (newDataHandler [dpA, dpB, dpC, dpD] 2) = [[dpA, dpB], [dpB, dpC]] := by
  have h := (stream_delivers_all_but_last_window [dpA, dpB, dpC, dpD] 2 5
    (by omega) (by decide) (by decide)).1
  exact h.trans (by rfl)

/-- C2 (confirmed): from any handler state satisfying the constructor's
invariant `1 ≤ W ≤ c`: if `c < len(series)`, `nextValues` returns the
window `series[c-W : c]` and increments the cursor; otherwise it
returns the exhausted signal and leaves the state unchanged. -/
theorem nextValues_step (h : DataHandler)
    (hW : 1 ≤ h.windowSize) (hc : h.windowSize ≤ h.counter) :
    (h.counter < (h.prices.length : Int) →
      nextValues h = .window
        ⟨(h.prices.take h.counter.toNat).drop (h.counter - h.windowSize).toNat⟩
        ⟨h.counter + 1, h.windowSize, h.prices⟩) ∧
    (¬ h.counter < (h.prices.length : Int) → nextValues h = .exhausted h) := by
  constructor
  · intro hlt
    have hcond : (0 : Int) ≤ h.counter - h.windowSize ∧
        h.counter - h.windowSize ≤ h.counter ∧ h.counter ≤ (h.prices.length : Int) := by
      omega
    have hslice : goSlice h.prices (h.counter - h.windowSize) h.counter =
        some ((h.prices.take h.counter.toNat).drop (h.counter - h.windowSize).toNat) := by
      rw [goSlice, if_pos hcond]
    rw [nextValues, if_pos hlt, hslice]
  · intro hge
    exact nextValues_ge h (by omega)

/-- C2 witness: a concrete mid-stream state delivering a window. -/
theorem nextValues_step_witness :
    nextValues ⟨2, 2, [dpA, dpB, dpC]⟩ = .window ⟨[dpA, dpB]⟩ ⟨3, 2, [dpA, dpB, dpC]⟩ := by
  have h := (nextValues_step ⟨2, 2, [dpA, dpB, dpC]⟩ (by decide) (by decide)).1 (by decide)
  exact h.trans (by rfl)

/-- C3 (confirmed): for any series shorter than the window size,
construction succeeds, the very first `nextValues` call signals
exhaustion, and no window is ever produced. -/
theorem short_series_immediately_exhausted (p : List DataPoint) (W : Int)
    (hshort : (p.length : Int) < W) :
    newDataHandler p W = ⟨W, W, p⟩ ∧
    nextValues (newDataHandler p W) = .exhausted (newDataHandler p W) ∧
    ∀ fuel, collect fuel (newDataHandler p W) = [] := by
  have hge : (((newDataHandler p W).prices).length : Int) ≤ (newDataHandler p W).counter := by
    simp only [newDataHandler]
    omega
  exact ⟨rfl, nextValues_ge _ hge, collect_exhausted _ hge⟩

/-- C3 witness: the empty series with window size 5. -/
theorem short_series_immediately_exhausted_witness :
    nextValues (newDataHandler [] 5) = .exhausted (newDataHandler [] 5) :=
  (short_series_immediately_exhausted [] 5 (by decide)).2.1

/-- C4 (confirmed): once `nextValues` has returned the exhausted signal
the state is unchanged, and every subsequent call on that stream also
returns the exhausted signal (never a window): exhaustion is an
idempotent terminal state. -/
theorem exhaustion_is_terminal (h h' : DataHandler)
    (hex : nextValues h = .exhausted h') :
    h' = h ∧ ∀ n : Nat, nextValues (advanceState^[n] h') = .exhausted h' := by
  obtain ⟨hge, hh⟩ := (nextValues_exhausted_iff h h').mp hex
  subst hh
  refine ⟨rfl, ?_⟩
  intro n
  have hfix : advanceState h' = h' := by
    rw [advanceState, nextValues_ge h' hge]
  rw [Function.iterate_fixed hfix n]
  exact nextValues_ge h' hge

/-- C4 witness: an exhausted stream stays exhausted three calls later. -/
theorem exhaustion_is_terminal_witness :
    nextValues (advanceState^[3] (⟨5, 5, []⟩ : DataHandler)) =
      .exhausted (⟨5, 5, []⟩ : DataHandler) :=
  (exhaustion_is_terminal ⟨5, 5, []⟩ ⟨5, 5, []⟩ (by rfl)).2 3

/-- C8 counterexample: at window size 0 (violating `W ≥ 1`) and at the
absent (empty) series, `newDataHandler` succeeds and returns an
ordinary handler, which even delivers a (degenerate, empty) window on
its first advance: no contract violation is reported at construction. -/
theorem construction_contract_check_refuted :
    newDataHandler [] 0 = ⟨0, 0, []⟩ ∧
    newDataHandler [dpA] 0 = ⟨0, 0, [dpA]⟩ ∧
    nextValues ⟨0, 0, [dpA]⟩ = .window ⟨[]⟩ ⟨1, 0, [dpA]⟩ := by
  exact ⟨rfl, rfl, rfl⟩

/-- C8 (amended): `newDataHandler` performs no validation: every window
size (including `W < 1`) and every series (including the absent/empty
one) is accepted and yields the handler `⟨W, W, series⟩`; with `W = 0`
and a nonempty series the first advance even delivers an empty window,
so invalid arguments are not reported at construction time. -/
theorem construction_performs_no_validation (prices : List DataPoint) (W : Int) :
    newDataHandler prices W = ⟨W, W, prices⟩ ∧
    (prices ≠ [] → nextValues (newDataHandler prices 0) = .window ⟨[]⟩ ⟨1, 0, prices⟩) := by
  refine ⟨rfl, ?_⟩
  intro hne
  have hlen : 0 < prices.length := List.length_pos.mpr hne
  have h := nextValues_lt prices 0 0 le_rfl hlen
  exact h.trans (by rfl)

/-- C8 witness: window size 0 accepted, empty window delivered. -/
theorem construction_performs_no_validation_witness :
    nextValues (newDataHandler [dpB] 0) = .window ⟨[]⟩ ⟨1, 0, [dpB]⟩ :=
  (construction_performs_no_validation [dpB] 0).2 (by simp)

/-- C9 counterexample: the handler built by `PricesFromCSV` from a
header-only source has cursor 5 and empty series, violating the claimed
invariant `c ≤ len(series)` immediately after construction. -/
theorem cursor_invariant_refuted :
    PricesFromCSV pfDec (.content [["open", "high", "low", "close", "volume"]]) =
      .ok ⟨5, 5, []⟩ ∧
    ¬ ((⟨5, 5, []⟩ : DataHandler).counter ≤
        (((⟨5, 5, []⟩ : DataHandler).prices).length : Int)) := by
  constructor
  · rfl
  · decide

/-- C9 (amended): at every reachable state — after construction and any
number of advances — the cursor satisfies
`W ≤ c ≤ max W len(series)` (so `c ≤ len(series)` whenever
`len(series) ≥ W`), and the window size and series never change. -/
theorem cursor_invariant (p : List DataPoint) (W : Int) (n : Nat) :
    W ≤ (advanceState^[n] (newDataHandler p W)).counter ∧
    (advanceState^[n] (newDataHandler p W)).counter ≤ max W (p.length : Int) ∧
    (advanceState^[n] (newDataHandler p W)).windowSize = W ∧
    (advanceState^[n] (newDataHandler p W)).prices = p := by
  induction n with
  | zero => exact ⟨le_rfl, le_max_left _ _, rfl, rfl⟩
  | succ n ih =>
    rw [Function.iterate_succ_apply']
    obtain ⟨h1, h2, h3, h4⟩ := ih
    rcases advanceState_cases (advanceState^[n] (newDataHandler p W)) with hcase | ⟨hcase, hlt⟩
    · rw [hcase]
      exact ⟨h1, h2, h3, h4⟩
    · rw [hcase]
      rw [h4] at hlt
      have hmax : (p.length : Int) ≤ max W (p.length : Int) := le_max_right _ _
      refine ⟨?_, ?_, h3, h4⟩
      · show W ≤ (advanceState^[n] (newDataHandler p W)).counter + 1
        omega
      · show (advanceState^[n] (newDataHandler p W)).counter + 1 ≤ max W (p.length : Int)
        omega

/-! Claim theorems: ingestion. -/

/-- C5 counterexample: a three-cell first line whose cells match the
expected prefix makes header validation panic (index out of range)
instead of returning the SchemaError; and a six-cell first line whose
first five cells are the expected columns is accepted, so acceptance is
not limited to exactly the five tokens. -/
theorem header_validation_refuted :
    PricesFromCSV pfDec (.content [["open", "high", "low"]]) = .panicked ∧
    PricesFromCSV pfDec (.content [["open", "high", "low", "close", "volume", "x"]]) =
      .ok (newDataHandler [] 5) :=
  ⟨rfl, rfl⟩

/-- C5 (amended): ingestion proceeds past header validation iff the
first line has at least five cells whose first five, lowercased, are
`open, high, low, close, volume` in order (extra trailing cells are not
rejected); a readable first line with at least five cells failing the
check, and a missing first line, yield the SchemaError; a first line
with fewer than five cells all matching the expected prefix causes an
index-out-of-range panic instead. -/
theorem header_validation_characterized (line : List String) (pf : String → Option ℚ)
    (rows : List (List String)) :
    (isCSVHeaderValid line = some true ↔
      5 ≤ line.length ∧ (line.take 5).map goToLower = csvColumns) ∧
    (isCSVHeaderValid line = none ↔
      line.length < 5 ∧ line.map goToLower = csvColumns.take line.length) ∧
    (isCSVHeaderValid line = some false →
      PricesFromCSV pf (.content (line :: rows)) = .err .schemaError) ∧
    (isCSVHeaderValid line = none →
      PricesFromCSV pf (.content (line :: rows)) = .panicked) ∧
    PricesFromCSV pf (.content []) = .err .schemaError := by
  have h5 : csvColumns.length = 5 := rfl
  refine ⟨?_, ?_, ?_, ?_, rfl⟩
  · have h := headerMatch_some_true csvColumns line
    rw [h5] at h
    exact h
  · have h := headerMatch_none csvColumns line
    rw [h5] at h
    exact h
  · intro hfalse
    simp only [PricesFromCSV]
    rw [hfalse]
  · intro hnone
    simp only [PricesFromCSV]
    rw [hnone]

/-- C5 witness: the mixed-case header is accepted; the reversed header
is rejected with the SchemaError. -/
theorem header_validation_characterized_witness :
    isCSVHeaderValid ["Open", "High", "Low", "Close", "Volume"] = some true ∧
    PricesFromCSV pfDec (.content [["volume", "close", "low", "high", "open"]]) =
      .err .schemaError := by
  constructor
  · exact (header_validation_characterized ["Open", "High", "Low", "Close", "Volume"]
      pfDec []).1.mpr ⟨by decide, by rfl⟩
  · exact (header_validation_characterized ["volume", "close", "low", "high", "open"]
      pfDec []).2.2.1 (by rfl)


/-- C6 (confirmed): a data row (of the header's cell count, reached
after well-formed rows) containing a cell that does not convert makes
`PricesFromCSV` fail with the ParseError identifying the offending
token and return no series, aborting the whole ingestion regardless of
the rows that follow. -/
theorem parse_error_aborts_ingestion (pf : String → Option ℚ)
    (headerLine : List String) (pre : List (List String)) (line : List String)
    (post : List (List String)) (t : String)
    (hhdr : isCSVHeaderValid headerLine = some true)
    (hpre : ∀ r ∈ pre, r.length = headerLine.length ∧ rowParses pf r = true)
    (hlen : line.length = headerLine.length)
    (herr : parse5 pf line = some (Except.error t)) :
    PricesFromCSV pf (.content (headerLine :: (pre ++ line :: post))) =
      .err (.parseError t) ∧
    t ∈ line.take 5 ∧ pf t = none := by
  have hrr := readRows_parse_error pf headerLine.length pre line post t hpre hlen herr
  have htok := parse5_error_token pf line t herr
  refine ⟨?_, htok.1, htok.2⟩
  simp only [PricesFromCSV]
  rw [hhdr, hrr]

/-- C6 witness: the specification's example row fails identifying the
token abc. -/
theorem parse_error_aborts_ingestion_witness :
    PricesFromCSV pfDec (.content [["open", "high", "low", "close", "volume"],
      ["1.0", "2.0", "abc", "3.0", "100"]]) = .err (.parseError tokAbc) :=
  (parse_error_aborts_ingestion pfDec ["open", "high", "low", "close", "volume"]
    [] ["1.0", "2.0", "abc", "3.0", "100"] [] tokAbc (by rfl) (by simp) (by rfl)
    (by rfl)).1

/-- C7 counterexample: a data row with four cells instead of five makes
`PricesFromCSV` terminate the process (`log.Fatal`) instead of
returning an error; and an unopenable source is reported as the header
SchemaError (the `os.Open` error is discarded), not as an I/O error. -/
theorem error_propagation_refuted :
    PricesFromCSV pfDec (.content [["open", "high", "low", "close", "volume"],
      ["1", "2", "3", "4"]]) = .fatal ∧
    PricesFromCSV pfDec Source.unopenable = .err .schemaError :=
  ⟨rfl, rfl⟩

/-- C7 (amended): header and cell-conversion failures are surfaced as
error returns, and an unopenable source is surfaced as the header
SchemaError return (its I/O error is discarded); but a data row whose
cell count differs from the header's terminates the process via
`log.Fatal` rather than returning an error; with a valid header and
uniform cell counts no crash is possible. -/
theorem ingestion_error_propagation (pf : String → Option ℚ) :
    PricesFromCSV pf Source.unopenable = .err .schemaError ∧
    (∀ (headerLine : List String) (rows : List (List String)),
      isCSVHeaderValid headerLine = some true →
      (∀ r ∈ rows, r.length = headerLine.length) →
      PricesFromCSV pf (.content (headerLine :: rows)) ≠ .fatal ∧
      PricesFromCSV pf (.content (headerLine :: rows)) ≠ .panicked) ∧
    (∀ (headerLine : List String) (pre : List (List String)) (line : List String)
      (post : List (List String)),
      isCSVHeaderValid headerLine = some true →
      (∀ r ∈ pre, r.length = headerLine.length ∧ rowParses pf r = true) →
      line.length ≠ headerLine.length →
      PricesFromCSV pf (.content (headerLine :: (pre ++ line :: post))) = .fatal) := by
  refine ⟨rfl, ?_, ?_⟩
  · intro headerLine rows hhdr hlen
    have h5 : 5 ≤ headerLine.length := by
      have h := (headerMatch_some_true csvColumns headerLine).mp hhdr
      exact h.1
    have hrr := readRows_no_crash pf headerLine.length h5 rows hlen
    simp only [PricesFromCSV]
    rw [hhdr]
    cases hres : readRows pf headerLine.length rows with
    | ok prices => simp
    | parseErr t => simp
    | fatal => exact absurd hres hrr.1
    | panicked => exact absurd hres hrr.2
  · intro headerLine pre line post hhdr hpre hlen
    have hrr := readRows_fatal pf headerLine.length pre line post hpre hlen
    simp only [PricesFromCSV]
    rw [hhdr, hrr]

/-- C7 witness: the unopenable source is an error return, and a
well-formed two-row source does not terminate the process. -/
theorem ingestion_error_propagation_witness :
    PricesFromCSV pfDec Source.unopenable = .err .schemaError ∧
    PricesFromCSV pfDec (.content [["open", "high", "low", "close", "volume"],
      ["1", "2", "3", "4", "5"]]) ≠ .fatal := by
  refine ⟨(ingestion_error_propagation pfDec).1, ?_⟩
  exact ((ingestion_error_propagation pfDec).2.1
    ["open", "high", "low", "close", "volume"] [["1", "2", "3", "4", "5"]]
    (by rfl) (by decide)).1

/-- C10 (confirmed): every handler successfully returned by
`PricesFromCSV` has window size 5 and initial cursor 5, whatever the
source: the entry point hard-codes the window size. -/
theorem window_size_always_five (pf : String → Option ℚ) (src : Source)
    (h : DataHandler) (hok : PricesFromCSV pf src = .ok h) :
    h.windowSize = 5 ∧ h.counter = 5 := by
  cases src with
  | unopenable => simp [PricesFromCSV] at hok
  | content records =>
    cases records with
    | nil => simp [PricesFromCSV] at hok
    | cons headerLine rows =>
      simp only [PricesFromCSV] at hok
      cases hh : isCSVHeaderValid headerLine with
      | none =>
        rw [hh] at hok
        simp at hok
      | some b =>
        cases b with
        | false =>
          rw [hh] at hok
          simp at hok
        | true =>
          rw [hh] at hok
          cases hres : readRows pf headerLine.length rows with
          | ok prices =>
            rw [hres] at hok
            simp only [IngestResult.ok.injEq] at hok
            subst hok
            exact ⟨rfl, rfl⟩
          | parseErr t =>
            rw [hres] at hok
            simp at hok
          | fatal =>
            rw [hres] at hok
            simp at hok
          | panicked =>
            rw [hres] at hok
            simp at hok

/-- C10 witness: a header-only source yields the handler with window
size 5 and cursor 5. -/
theorem window_size_always_five_witness :
    (newDataHandler [] 5).windowSize = 5 ∧ (newDataHandler [] 5).counter = 5 :=
  window_size_always_five pfDec (.content [["open", "high", "low", "close", "volume"]])
    (newDataHandler [] 5) (by rfl)
